import Mathlib

/-!
Verification development for the go-mesos-executor lifecycle core: a shallow
embedding in Lean 4 of the hook manager (src/hook/hook_manager.go, first
section), the ACL hook (src/hook/hook_manager.go, second section), and the
containerd containerizer (src/container/containerd.go), together with proofs
about that embedding.

Modelling conventions:
- a Go `error` result is `Option GoErr` (`none` = nil, `some msg` = the error
  with that message); error messages are kept verbatim from the source;
- Go slices are `List`, maps used only for key-membership are `List String`;
- side effects that the claims observe (which hook callbacks run, which
  iptables driver calls are made) are returned as explicit traces;
- methods that mutate the receiver take and return it explicitly; methods
  that do not mutate it still return it, so that frame facts are statable.
-/

/-- Go error values, represented by their message. -/
abbrev GoErr := String

/-! ## Task metadata (the parts of the mesos protobuf types the code reads)

The code reads task labels, the docker network mode and the docker port
mappings through nil-safe protobuf getters; optional submessages are
`Option`, and each getter returns the protobuf default when a link is nil.
-/

/-- One task label: a key/value pair (mesos.Label). -/
structure Label where
  Key : String
  Value : String
deriving DecidableEq

/-- One docker port mapping; the code reads GetProtocol and GetHostPort
(a uint32, always within Nat here). -/
structure PortMapping where
  Protocol : String
  HostPort : Nat
deriving DecidableEq

/-- The mesos ContainerInfo_DockerInfo_Network enumeration. -/
inductive DockerNetwork where
  | HOST
  | BRIDGE
  | NONE
  | USER
deriving DecidableEq

/-- The docker section of a task container descriptor. -/
structure DockerInfo where
  Network : Option DockerNetwork
  PortMappings : List PortMapping

/-- The container section of a task descriptor. -/
structure ContainerInfo where
  Docker : Option DockerInfo

/-- The slice of the mesos TaskInfo message that the hook code reads. -/
structure TaskInfo where
  Container : Option ContainerInfo
  Labels : Option (List Label)

/-- GetContainer().GetDocker().GetNetwork(): the protobuf default for the
network enumeration is HOST. -/
def TaskInfo.getNetwork (t : TaskInfo) : DockerNetwork :=
  match t.Container with
  | none => DockerNetwork.HOST
  | some ci =>
    match ci.Docker with
    | none => DockerNetwork.HOST
    | some d => d.Network.getD DockerNetwork.HOST

/-- GetContainer().GetDocker().GetPortMappings(): nil links yield the empty
slice. -/
def TaskInfo.getPortMappings (t : TaskInfo) : List PortMapping :=
  match t.Container with
  | none => []
  | some ci =>
    match ci.Docker with
    | none => []
    | some d => d.PortMappings

/-- GetLabels().GetLabels(): a nil Labels message yields the empty slice. -/
def TaskInfo.getLabels (t : TaskInfo) : List Label :=
  t.Labels.getD []

/-- The slice of the mesos FrameworkInfo message threaded through hooks
(only passed along, never read by the embedded code). -/
structure FrameworkInfo where
  User : String
  Name : String

/-- Container creation info (src/unnamed/part_000, type Info). -/
structure Info where
  CPUSharesLimit : Nat
  MemoryLimit : Nat
  Name : String
  TaskInfo : TaskInfo

/-- The Containerizer capability interface (src/unnamed/part_000), as a
record of operations. ContainerExec delivers its result through a channel
and is omitted: no embedded claim touches it. The blocking behaviour of
ContainerWait is not representable; only its returned value is modelled. -/
structure Containerizer where
  ContainerCreate : Info → String × Option GoErr
  ContainerGetPID : String → Int × Option GoErr
  ContainerRemove : String → Option GoErr
  ContainerRun : String → Option GoErr
  ContainerStop : String → Option GoErr
  ContainerWait : String → Int × Option GoErr
  ContainerGetIPsByInterface : String → String → List String × Option GoErr

/-- The containerd-backed containerizer (src/container/containerd.go). The
client handle is an external resource and is not part of the pure state. -/
structure ContainerdContainerizer where
  Image : String
  Namespace : String

/-- ContainerGetPID of ContainerdContainerizer (src/container/containerd.go
lines 229-231): the body is literally `return -1, nil`. -/
def ContainerdContainerizer.ContainerGetPID
    (_c : ContainerdContainerizer) (_id : String) : Int × Option GoErr :=
  (-1, none)

/-! ## Hooks and the hook manager (src/hook/hook_manager.go, first section) -/

/-- A lifecycle hook: a name, a priority, and five optional phase callbacks.
A nil Go function field is `none`. Each callback returns a Go error. -/
structure Hook where
  Name : String
  Priority : Int
  RunPreCreate : Option (Containerizer → TaskInfo → FrameworkInfo → Option GoErr)
  RunPreRun : Option (Containerizer → TaskInfo → FrameworkInfo → String → Option GoErr)
  RunPostRun : Option (Containerizer → TaskInfo → FrameworkInfo → String → Option GoErr)
  RunPreStop : Option (Containerizer → TaskInfo → FrameworkInfo → String → Option GoErr)
  RunPostStop : Option (Containerizer → TaskInfo → FrameworkInfo → String → Option GoErr)

/-- The hook manager state: the set of enabled hook names (a Go
map[string]struct{}, modelled by its key list; only membership is used) and
the ordered list of registered hooks. -/
structure Manager where
  EnabledHooks : List String
  Hooks : List Hook

/-- NewManager: enables the given names and registers no hooks. -/
def NewManager (hooks : List String) : Manager :=
  { EnabledHooks := hooks, Hooks := [] }

/-- The comparison function passed to sort.Sort by sortByPriority:
literally `!(h1.Priority < h2.Priority)`. Note that this is not a strict
ordering: two hooks of equal priority compare true in both directions. -/
def hookLess (h1 h2 : Hook) : Bool :=
  !(decide (h1.Priority < h2.Priority))

/-- One step of the inner loop of insertion sort, working on the reversed
prefix (head = rightmost element): the new element x moves left past y
exactly when hookLess x y, as in the Go runtime insertionSort. -/
def insRev (x : Hook) : List Hook → List Hook
  | [] => [x]
  | y :: ys => if hookLess x y then y :: insRev x ys else x :: y :: ys

/-- Insertion sort of the hook slice with comparison hookLess, represented
as a left fold producing the reversed result. Go sort.Sort dispatches to
exactly this insertionSort for slices of at most 12 elements (this executor
registers far fewer hooks); for at most 6 elements every Go version runs
precisely this algorithm. -/
def sortHooksRev (hooks : List Hook) : List Hook :=
  hooks.foldl (fun acc x => insRev x acc) []

/-- sortByPriority: sorts the registered hook slice with sort.Sort and the
hookLess comparison (descending priority). -/
def Manager.sortByPriority (m : Manager) : Manager :=
  { m with Hooks := (sortHooksRev m.Hooks).reverse }

/-- RegisterHooks: appends every hook whose name is in the enabled set
(disabled hooks are skipped with only a debug log) and then re-sorts the
whole registered list by priority. -/
def Manager.RegisterHooks (m : Manager) (hooks : List Hook) : Manager :=
  Manager.sortByPriority
    { m with
      Hooks := m.Hooks ++ hooks.filter (fun hook => m.EnabledHooks.contains hook.Name) }

/-- Phase name constant preCreate. -/
def preCreate : String := "pre-create"

/-- Phase name constant preRun. -/
def preRun : String := "pre-run"

/-- Phase name constant postRun. -/
def postRun : String := "post-run"

/-- Phase name constant preStop. -/
def preStop : String := "pre-stop"

/-- Phase name constant postStop. -/
def postStop : String := "post-stop"

/-- The per-hook dispatch of the switch statement inside runHooks, hoisted
out of the loop (the phase is loop invariant): for a known phase it yields
`none` when the callback of the hook for that phase is nil (the hook is
skipped) and `some err` when the callback is present and returns err; for
an unknown phase it yields none for every hook (the loop body then returns
an error before invoking anything, see runHooks). The container id is
ignored by the pre-create callback exactly as in the source. -/
def phaseSel (w : String) (c : Containerizer) (ti : TaskInfo) (fi : FrameworkInfo)
    (containerID : String) (hook : Hook) : Option (Option GoErr) :=
  if w = preCreate then hook.RunPreCreate.map (fun f => f c ti fi)
  else if w = preRun then hook.RunPreRun.map (fun f => f c ti fi containerID)
  else if w = postRun then hook.RunPostRun.map (fun f => f c ti fi containerID)
  else if w = preStop then hook.RunPreStop.map (fun f => f c ti fi containerID)
  else if w = postStop then hook.RunPostStop.map (fun f => f c ti fi containerID)
  else none

/-- The loop of runHooks for a fixed valid phase: iterates the hooks in
order; a hook with an absent callback is skipped; an invoked hook is
recorded in the returned trace; when an invoked callback fails and
exitOnError is set, the loop returns that error at once; otherwise the
failure is only logged and the loop continues; when the loop completes the
function returns nil. -/
def hookPhaseLoop (sel : Hook → Option (Option GoErr)) (exitOnError : Bool) :
    List Hook → List String × Option GoErr
  | [] => ([], none)
  | hook :: rest =>
    match sel hook with
    | none => hookPhaseLoop sel exitOnError rest
    | some err =>
      if err.isSome && exitOnError then ([hook.Name], err)
      else
        let r := hookPhaseLoop sel exitOnError rest
        (hook.Name :: r.1, r.2)

/-- The names of the hooks whose callback is present for the selected
phase, in list order: exactly the hooks the loop invokes when no early
error return happens. -/
def invokedNames (sel : Hook → Option (Option GoErr)) (hooks : List Hook) : List String :=
  (hooks.filter (fun hook => (sel hook).isSome)).map Hook.Name

/-- runHooks: returns the (unchanged) manager, the trace of invoked hook
names, and the returned Go error. For one of the five known phases it runs
the loop; for any other phase the switch default returns an empty error on
the first iteration (so an empty hook list still returns nil). -/
def Manager.runHooks (m : Manager) (w : String) (c : Containerizer) (ti : TaskInfo)
    (fi : FrameworkInfo) (containerID : String) (exitOnError : Bool) :
    Manager × List String × Option GoErr :=
  if w = preCreate ∨ w = preRun ∨ w = postRun ∨ w = preStop ∨ w = postStop then
    (m, hookPhaseLoop (phaseSel w c ti fi containerID) exitOnError m.Hooks)
  else
    (m, [], if m.Hooks.isEmpty then none else some "")

/-- RunPreCreateHooks: runHooks on pre-create with an empty container id
and exitOnError true. -/
def Manager.RunPreCreateHooks (m : Manager) (c : Containerizer) (ti : TaskInfo)
    (fi : FrameworkInfo) : Manager × List String × Option GoErr :=
  m.runHooks preCreate c ti fi "" true

/-- RunPreRunHooks: runHooks on pre-run with exitOnError true. -/
def Manager.RunPreRunHooks (m : Manager) (c : Containerizer) (ti : TaskInfo)
    (fi : FrameworkInfo) (containerID : String) : Manager × List String × Option GoErr :=
  m.runHooks preRun c ti fi containerID true

/-- RunPostRunHooks: runHooks on post-run with exitOnError true. -/
def Manager.RunPostRunHooks (m : Manager) (c : Containerizer) (ti : TaskInfo)
    (fi : FrameworkInfo) (containerID : String) : Manager × List String × Option GoErr :=
  m.runHooks postRun c ti fi containerID true

/-- RunPreStopHooks: runHooks on pre-stop with exitOnError false. -/
def Manager.RunPreStopHooks (m : Manager) (c : Containerizer) (ti : TaskInfo)
    (fi : FrameworkInfo) (containerID : String) : Manager × List String × Option GoErr :=
  m.runHooks preStop c ti fi containerID false

/-- RunPostStopHooks: runHooks on post-stop with exitOnError false. -/
def Manager.RunPostStopHooks (m : Manager) (c : Containerizer) (ti : TaskInfo)
    (fi : FrameworkInfo) (containerID : String) : Manager × List String × Option GoErr :=
  m.runHooks postStop c ti fi containerID false

/-! ## The ACL hook (src/hook/hook_manager.go, second section)

Configuration read through viper is passed as an ACLConfig value; the
iptables driver is passed as the chain listing it would return and the
action callback (driver.Append for injection, driver.Delete for
retraction). Every call made to the action is recorded in a trace.
-/

/-- The viper configuration surface of the ACL hook: acl.chain,
acl.external_interface and acl.default_allowed_cidr. -/
structure ACLConfig where
  chain : String
  externalInterface : String
  defaultAllowedCIDR : List String

/-- One invocation of the iptables action callback: the table, the chain
and the rule specification token list it was called with. -/
structure ACLCall where
  table : String
  chain : String
  rulespec : List String
deriving DecidableEq

/-- An action callback that never fails, standing for an iptables driver
whose Append/Delete always succeed. -/
def okAction : String → String → List String → Option GoErr :=
  fun _ _ _ => none

/-- Operations checkChain may perform on the iptables driver. The NewChain
constructor exists in the driver API; recording it in the same trace type
makes the absence of chain creation statable. -/
inductive DriverOp where
  | listChains (table : String)
  | newChain (table : String) (chain : String)
deriving DecidableEq

/-- checkChain: reads acl.chain from the configuration, fails when it is
unset or names FORWARD or OUTPUT, then (and only then) lists the chains of
the filter table and fails when the configured chain is not among them.
The error strings, including the ouput typo, are verbatim from the source.
The driver operations performed are returned as a trace. -/
def checkChain (cfg : ACLConfig) (listChainsResult : Except GoErr (List String)) :
    List DriverOp × Except GoErr String :=
  if cfg.chain = "" then
    ([], .error "no iptables chain set for acl hook")
  else if cfg.chain = "FORWARD" || cfg.chain = "OUTPUT" then
    ([], .error "forward and ouput chains cannot be used for acl injection")
  else
    match listChainsResult with
    | .error e => ([DriverOp.listChains "filter"], .error e)
    | .ok chains =>
      if cfg.chain ∈ chains then
        ([DriverOp.listChains "filter"], .ok cfg.chain)
      else
        ([DriverOp.listChains "filter"], .error ("Chain " ++ cfg.chain ++ " does not exists"))

/-- Splitting a character list on every occurrence of a separator
character. Models strings.Split for the one-character separators this code
uses; like Go, splitting the empty string yields one empty field. -/
def splitCharsOn (sep : Char) : List Char → List (List Char)
  | [] => [[]]
  | c :: cs =>
    match splitCharsOn sep cs with
    | [] => [[]]
    | g :: gs => if c = sep then [] :: g :: gs else (c :: g) :: gs

/-- strings.Split of a string on a one-character separator. -/
def goSplit (s : String) (sep : Char) : List String :=
  (splitCharsOn sep s.data).map String.mk

/-- Decimal value of a digit character list. -/
def digitsToNat (cs : List Char) : Nat :=
  cs.foldl (fun n c => n * 10 + (c.toNat - 48)) 0

/-- The largest Go int64 value. -/
def maxGoInt : Nat := 9223372036854775807

/-- strconv.Atoi restricted to the inputs this code feeds it: the unsigned
digit strings captured by the label regexp (sign handling is unreachable
and omitted). Returns (value, ok); ok = false models a non-nil error, in
which case the value is the saturated MaxInt64 that ParseInt reports on
range overflow. -/
def goAtoi (s : String) : Nat × Bool :=
  if s.data ≠ [] ∧ s.data.all Char.isDigit then
    let n := digitsToNat s.data
    if n ≤ maxGoInt then (n, true) else (maxGoInt, false)
  else (0, false)

/-- Validity of one dotted-quad field for net.ParseIP: a nonempty decimal
digit run with value at most 255 (the Go version of this repository
accepted leading zeros). -/
def ipv4FieldOk (s : String) : Bool :=
  !s.data.isEmpty && s.data.all Char.isDigit && decide (digitsToNat s.data ≤ 255)

/-- net.ParseIP restricted to IPv4 dotted-quad literals, the address form
the ACL labels of this hook carry: exactly four fields, each a decimal
value at most 255. IPv6 literal support of net.ParseIP is not modelled.
Only non-nil-ness of the parse result is used by the source. -/
def goParseIPOk (s : String) : Bool :=
  let parts := goSplit s '.'
  parts.length == 4 && parts.all ipv4FieldOk

/-- net.ParseCIDR validity for the same address family: an address part
that parses as IPv4 and, after the first slash, a decimal prefix length of
value at most 32. Any second slash makes the prefix part non-decimal and
fails, as in Go. -/
def goParseCIDROk (s : String) : Bool :=
  match goSplit s '/' with
  | [addr, mask] =>
    goParseIPOk addr && !mask.data.isEmpty && mask.data.all Char.isDigit
      && decide (digitsToNat mask.data ≤ 32)
  | _ => false

/-- Maximal digit prefix of a character list and the remainder. -/
def takeDigits : List Char → List Char × List Char
  | [] => ([], [])
  | c :: cs =>
    if c.isDigit then
      let r := takeDigits cs
      (c :: r.1, r.2)
    else ([], c :: cs)

/-- Match of the regexp EXECUTOR_(?P<portIndex>[0-9]+)_ACL at the head of
the given character list, returning the captured digit group. A shorter
digit group than the maximal one can never be followed by the underscore
the pattern requires, so taking the maximal run is exact. -/
def aclMatchAt (cs : List Char) : Option String :=
  if cs.take 9 = "EXECUTOR_".data then
    let r := takeDigits (cs.drop 9)
    if r.1 ≠ [] ∧ r.2.take 4 = "_ACL".data then some (String.mk r.1) else none
  else none

/-- Leftmost match of the ACL label regexp over all start positions. -/
def aclFindAux : List Char → Option String
  | [] => none
  | c :: cs =>
    match aclMatchAt (c :: cs) with
    | some ds => some ds
    | none => aclFindAux cs

/-- FindStringSubmatch of the unanchored regexp
EXECUTOR_(?P<portIndex>[0-9]+)_ACL, reduced to its port index capture
(the full-match entry of the Go result is never read; the dead
"Could not retrieve port index" branch guards a capture that is always
present when the match is non-nil). -/
def aclFindSubmatch (s : String) : Option String :=
  aclFindAux s.data

/-- fmt.Sprintf of aclHookRuleTemplate
("-i %s -p %s -s %s --dport %s -j ACCEPT"). -/
def aclRuleString (iface proto src port : String) : String :=
  "-i " ++ iface ++ " -p " ++ proto ++ " -s " ++ src ++ " --dport " ++ port ++ " -j ACCEPT"

/-- The first per-label loop of generateACL: validates every comma-split
entry of the label value before any rule of the label is applied. An entry
that parses as a bare IP is widened with /32; an entry that parses as a
CIDR is kept; anything else fails the whole label with the verbatim
Invalid IP error. -/
def parseLabelIPs : List String → Except GoErr (List String)
  | [] => .ok []
  | ip :: rest =>
    if goParseIPOk ip then
      match parseLabelIPs rest with
      | .ok ips => .ok ((ip ++ "/32") :: ips)
      | .error e => .error e
    else if goParseCIDROk ip then
      match parseLabelIPs rest with
      | .ok ips => .ok (ip :: ips)
      | .error e => .error e
    else .error ("Invalid IP: " ++ ip)

/-- The injection loop of generateACL over the validated sources of one
label: builds each rule from the template, splits it on spaces and calls
the action on the filter table and the resolved chain. An action failure
ends the whole generation with an error only when stopOnError is set;
otherwise the failure is dropped and the loop continues. -/
def injectRules (chain iface proto portStr : String)
    (action : String → String → List String → Option GoErr) (stopOnError : Bool) :
    List String → List ACLCall × Option GoErr
  | [] => ([], none)
  | ip :: rest =>
    let spec := goSplit (aclRuleString iface proto ip portStr) ' '
    match action "filter" chain spec with
    | some e =>
      if stopOnError then
        ([⟨"filter", chain, spec⟩], some ("Error while injecting acl iptables rule: " ++ e))
      else
        let r := injectRules chain iface proto portStr action stopOnError rest
        (⟨"filter", chain, spec⟩ :: r.1, r.2)
    | none =>
      let r := injectRules chain iface proto portStr action stopOnError rest
      (⟨"filter", chain, spec⟩ :: r.1, r.2)

/-- The label loop of generateACL: non-matching labels are skipped; a
matching label is checked (index parse, index within the port mappings,
address list validity) and its rules are applied. Validation failures
return at once whatever stopOnError says, exactly as in the source; action
failures are governed by stopOnError inside injectRules. -/
def aclLabelLoop (iface chain : String) (pms : List PortMapping)
    (action : String → String → List String → Option GoErr) (stopOnError : Bool) :
    List Label → List ACLCall × Option GoErr
  | [] => ([], none)
  | l :: rest =>
    match aclFindSubmatch l.Key with
    | none => aclLabelLoop iface chain pms action stopOnError rest
    | some ds =>
      match goAtoi ds with
      | (v, false) => ([], some ("Port index " ++ toString v ++ " is not valid"))
      | (v, true) =>
        if hv : v < pms.length then
          let pm := pms[v]
          match parseLabelIPs (goSplit l.Value ',') with
          | .error e => ([], some e)
          | .ok ips =>
            let r := injectRules chain iface pm.Protocol (toString pm.HostPort)
              action stopOnError ips
            match r.2 with
            | some e => (r.1, some e)
            | none =>
              let r2 := aclLabelLoop iface chain pms action stopOnError rest
              (r.1 ++ r2.1, r2.2)
        else ([], some ("Port index " ++ toString v ++ " does not match port mapping definition"))

/-- The inner loop of the default-allowed section of generateACL: one rule
for the given CIDR per declared port mapping. -/
def defaultRulesPorts (iface chain cidr : String)
    (action : String → String → List String → Option GoErr) (stopOnError : Bool) :
    List PortMapping → List ACLCall × Option GoErr
  | [] => ([], none)
  | pm :: rest =>
    let spec := goSplit (aclRuleString iface pm.Protocol cidr (toString pm.HostPort)) ' '
    match action "filter" chain spec with
    | some e =>
      if stopOnError then
        ([⟨"filter", chain, spec⟩], some ("Error while injecting acl iptables rule: " ++ e))
      else
        let r := defaultRulesPorts iface chain cidr action stopOnError rest
        (⟨"filter", chain, spec⟩ :: r.1, r.2)
    | none =>
      let r := defaultRulesPorts iface chain cidr action stopOnError rest
      (⟨"filter", chain, spec⟩ :: r.1, r.2)

/-- The outer loop of the default-allowed section of generateACL over the
configured acl.default_allowed_cidr entries (used unvalidated, as in the
source). -/
def defaultRulesLoop (iface chain : String)
    (action : String → String → List String → Option GoErr) (stopOnError : Bool)
    (pms : List PortMapping) : List String → List ACLCall × Option GoErr
  | [] => ([], none)
  | cidr :: rest =>
    let r := defaultRulesPorts iface chain cidr action stopOnError pms
    match r.2 with
    | some e => (r.1, some e)
    | none =>
      let r2 := defaultRulesLoop iface chain action stopOnError pms rest
      (r.1 ++ r2.1, r2.2)

/-- The external interface generateACL scopes rules to: the configured
acl.external_interface, or the literal all when unset. -/
def aclIface (cfg : ACLConfig) : String :=
  if cfg.externalInterface = "" then "all" else cfg.externalInterface

/-- generateACL: derives all ACL rules of the task from its labels and the
default-allowed networks and applies each through the action on the
resolved chain. Injection passes driver.Append with stopOnError true;
retraction passes driver.Delete with stopOnError false. Returns the action
call trace and the Go error result. -/
def generateACL (cfg : ACLConfig) (info : TaskInfo) (chain : String)
    (action : String → String → List String → Option GoErr) (stopOnError : Bool) :
    List ACLCall × Option GoErr :=
  let iface := aclIface cfg
  let pms := info.getPortMappings
  let r := aclLabelLoop iface chain pms action stopOnError info.getLabels
  match r.2 with
  | some e => (r.1, some e)
  | none =>
    let r2 := defaultRulesLoop iface chain action stopOnError pms cfg.defaultAllowedCIDR
    (r.1 ++ r2.1, r2.2)

/-! ## Concrete fixtures used by witnesses and counterexamples -/

/-- A containerizer whose operations all succeed trivially; hooks only
thread it through. -/
def czFix : Containerizer :=
  ⟨fun _ => ("", none), fun _ => (0, none), fun _ => none, fun _ => none, fun _ => none,
   fun _ => (0, none), fun _ _ => ([], none)⟩

/-- An empty task descriptor. -/
def ti0 : TaskInfo := ⟨none, none⟩

/-- An empty framework descriptor. -/
def fi0 : FrameworkInfo := ⟨"", ""⟩

/-- A hook whose pre-run callback fails with the message boom. -/
def hookFail : Hook := ⟨"h1", 3, none, some (fun _ _ _ _ => some "boom"), none, none, none⟩

/-- A hook whose pre-run callback succeeds. -/
def hookOk2 : Hook := ⟨"h2", 2, none, some (fun _ _ _ _ => none), none, none, none⟩

/-- Another hook whose pre-run callback succeeds. -/
def hookOk3 : Hook := ⟨"h3", 1, none, some (fun _ _ _ _ => none), none, none, none⟩

/-- A manager with the three hooks above registered in priority order. -/
def mFix : Manager := ⟨["h1", "h2", "h3"], [hookFail, hookOk2, hookOk3]⟩

/-- A hook named a with priority 1 and no callbacks. -/
def hookA : Hook := ⟨"a", 1, none, none, none, none, none⟩

/-- A hook named b with priority 1 and no callbacks. -/
def hookB : Hook := ⟨"b", 1, none, none, none, none, none⟩

/-- ACL configuration with external interface eth0 and no default-allowed
networks. -/
def cfg4 : ACLConfig := ⟨"acl", "eth0", []⟩

/-- The task of the C4 scenario: one tcp port mapping on host port 8080
and the label EXECUTOR_0_ACL with two allowed sources. -/
def task4 : TaskInfo :=
  ⟨some ⟨some ⟨some DockerNetwork.BRIDGE, [⟨"tcp", 8080⟩]⟩⟩,
   some [⟨"EXECUTOR_0_ACL", "10.0.0.5,10.1.0.0/24"⟩]⟩

/-- A task with two port mappings and a label referencing port index 5. -/
def task5 : TaskInfo :=
  ⟨some ⟨some ⟨some DockerNetwork.BRIDGE, [⟨"tcp", 80⟩, ⟨"udp", 53⟩]⟩⟩,
   some [⟨"EXECUTOR_5_ACL", "10.0.0.1"⟩]⟩

/-- ACL configuration with external interface eth1 and one default-allowed
network. -/
def cfg7 : ACLConfig := ⟨"acl", "eth1", ["10.9.0.0/16"]⟩

/-- A task whose first ACL label value is malformed and whose second ACL
label is valid. -/
def task7 : TaskInfo :=
  ⟨some ⟨some ⟨some DockerNetwork.BRIDGE, [⟨"tcp", 80⟩]⟩⟩,
   some [⟨"EXECUTOR_0_ACL", "bad_ip"⟩, ⟨"EXECUTOR_0_ACL", "10.0.0.5"⟩]⟩

/-- The same task as task7 without the malformed label: it defines one
label rule and, with cfg7, one default-allowed rule. -/
def task7good : TaskInfo :=
  ⟨some ⟨some ⟨some DockerNetwork.BRIDGE, [⟨"tcp", 80⟩]⟩⟩,
   some [⟨"EXECUTOR_0_ACL", "10.0.0.5"⟩]⟩

/-- ACL configuration with an unset chain. -/
def cfgE : ACLConfig := ⟨"", "eth0", []⟩

/-- ACL configuration whose chain is the built-in FORWARD. -/
def cfgF : ACLConfig := ⟨"FORWARD", "eth0", []⟩

/-- ACL configuration whose chain is absent from the filter table. -/
def cfgA : ACLConfig := ⟨"mychain", "eth0", []⟩

/-- A filter-table chain listing holding only the three built-in chains. -/
def chainsFix : Except GoErr (List String) := .ok ["INPUT", "FORWARD", "OUTPUT"]

/-! ## Lemmas about the hook sort -/

/-- Inserting with insRev permutes: the result holds exactly the inserted
element and the previous ones. -/
theorem insRev_perm (x : Hook) (acc : List Hook) : List.Perm (insRev x acc) (x :: acc) := by
  induction acc with
  | nil => simp [insRev]
  | cons y ys ih =>
    by_cases hc : hookLess x y
    · simp only [insRev, hc, if_true]
      exact (ih.cons y).trans (List.Perm.swap x y ys)
    · simp [insRev, hc]

/-- insRev preserves the nondecreasing-priority invariant of the reversed
accumulator. -/
theorem insRev_pairwise (x : Hook) (acc : List Hook)
    (h : acc.Pairwise (fun a b => a.Priority ≤ b.Priority)) :
    (insRev x acc).Pairwise (fun a b => a.Priority ≤ b.Priority) := by
  induction acc with
  | nil => simp [insRev]
  | cons y ys ih =>
    rw [List.pairwise_cons] at h
    obtain ⟨hy, hys⟩ := h
    by_cases hc : hookLess x y
    · have hyx : y.Priority ≤ x.Priority := by
        simpa [hookLess, not_lt] using hc
      simp only [insRev]
      rw [if_pos hc, List.pairwise_cons]
      refine ⟨?_, ih hys⟩
      intro z hz
      have hz2 : z ∈ x :: ys := (insRev_perm x ys).mem_iff.mp hz
      rcases List.mem_cons.mp hz2 with rfl | hz3
      · exact hyx
      · exact hy z hz3
    · have hxy : x.Priority < y.Priority := by
        simpa [hookLess, not_lt] using hc
      simp only [insRev]
      rw [if_neg hc, List.pairwise_cons]
      refine ⟨?_, List.pairwise_cons.mpr ⟨hy, hys⟩⟩
      intro z hz
      rcases List.mem_cons.mp hz with rfl | hz2
      · exact le_of_lt hxy
      · exact le_trans (le_of_lt hxy) (hy z hz2)

/-- The insertion-sort fold permutes the input onto the accumulator. -/
theorem foldl_insRev_perm : ∀ (xs acc : List Hook),
    List.Perm (xs.foldl (fun a x => insRev x a) acc) (acc ++ xs)
  | [], acc => by simp
  | x :: xs, acc => by
    have ih := foldl_insRev_perm xs (insRev x acc)
    have h1 : List.Perm (insRev x acc ++ xs) (x :: (acc ++ xs)) :=
      (insRev_perm x acc).append_right xs
    have h2 : List.Perm (acc ++ x :: xs) (x :: (acc ++ xs)) := List.perm_middle
    simpa using ih.trans (h1.trans h2.symm)

/-- The insertion-sort fold preserves the nondecreasing invariant. -/
theorem foldl_insRev_pairwise : ∀ (xs acc : List Hook),
    acc.Pairwise (fun a b => a.Priority ≤ b.Priority) →
    (xs.foldl (fun a x => insRev x a) acc).Pairwise (fun a b => a.Priority ≤ b.Priority)
  | [], _, h => h
  | x :: xs, acc, h => foldl_insRev_pairwise xs (insRev x acc) (insRev_pairwise x acc h)

/-- After sortByPriority the hook list is nonincreasing by priority. -/
theorem sortByPriority_pairwise (m : Manager) :
    (m.sortByPriority).Hooks.Pairwise (fun h1 h2 => h2.Priority ≤ h1.Priority) := by
  have h := foldl_insRev_pairwise m.Hooks [] (by simp)
  simpa [Manager.sortByPriority, sortHooksRev, List.pairwise_reverse] using h

/-- sortByPriority permutes the hook list. -/
theorem sortByPriority_perm (m : Manager) :
    List.Perm (m.sortByPriority).Hooks m.Hooks := by
  have h := foldl_insRev_perm m.Hooks []
  exact ((sortHooksRev m.Hooks).reverse_perm).trans (by simpa [sortHooksRev] using h)

/-- RegisterHooks keeps the enabled set and permutes the previous hooks
plus the enabled part of the new ones. -/
theorem RegisterHooks_perm (m : Manager) (hs : List Hook) :
    (m.RegisterHooks hs).EnabledHooks = m.EnabledHooks ∧
    List.Perm (m.RegisterHooks hs).Hooks
      (m.Hooks ++ hs.filter (fun hook => m.EnabledHooks.contains hook.Name)) :=
  ⟨rfl, sortByPriority_perm _⟩

/-- A fold of RegisterHooks calls keeps the enabled set and accumulates
exactly the enabled registered hooks, up to permutation. -/
theorem foldl_register (names : List String) : ∀ (calls : List (List Hook)) (m0 : Manager),
    m0.EnabledHooks = names →
    (calls.foldl (fun m hs => m.RegisterHooks hs) m0).EnabledHooks = names ∧
    List.Perm (calls.foldl (fun m hs => m.RegisterHooks hs) m0).Hooks
      (m0.Hooks ++ (calls.flatten.filter (fun h => names.contains h.Name)))
  | [], m0, h => ⟨h, by simp⟩
  | c :: cs, m0, h => by
    have hm1 : (m0.RegisterHooks c).EnabledHooks = names := h
    obtain ⟨he, hp⟩ := foldl_register names cs (m0.RegisterHooks c) hm1
    refine ⟨he, ?_⟩
    have h1 : List.Perm (m0.RegisterHooks c).Hooks
        (m0.Hooks ++ c.filter (fun hook => names.contains hook.Name)) := by
      have := (RegisterHooks_perm m0 c).2
      rwa [h] at this
    have h2 := hp.trans (h1.append_right (cs.flatten.filter (fun h => names.contains h.Name)))
    simpa [List.filter_append, List.append_assoc] using h2

/-- A fold of RegisterHooks calls over an already sorted manager yields a
sorted hook list (each call re-sorts). -/
theorem foldl_register_pairwise : ∀ (calls : List (List Hook)) (m0 : Manager),
    m0.Hooks.Pairwise (fun h1 h2 => h2.Priority ≤ h1.Priority) →
    (calls.foldl (fun m hs => m.RegisterHooks hs) m0).Hooks.Pairwise
      (fun h1 h2 => h2.Priority ≤ h1.Priority)
  | [], _, h => h
  | _ :: cs, _m0, _ => foldl_register_pairwise cs _ (sortByPriority_pairwise _)

/-! ## Lemmas about the phase loop -/

/-- With exitOnError false the loop invokes every present callback in
order and returns nil, whatever the callbacks return. -/
theorem hookPhaseLoop_continue (sel : Hook → Option (Option GoErr)) :
    ∀ hooks : List Hook, hookPhaseLoop sel false hooks = (invokedNames sel hooks, none)
  | [] => rfl
  | hook :: rest => by
    have ih := hookPhaseLoop_continue sel rest
    cases hsel : sel hook with
    | none => simp [hookPhaseLoop, hsel, invokedNames, List.filter_cons, ih]
    | some err => simp [hookPhaseLoop, hsel, invokedNames, List.filter_cons, ih]

/-- With exitOnError true the loop stops at the first failing callback:
it invokes the present callbacks of the prefix, then the failing hook, and
returns its error. -/
theorem hookPhaseLoop_first_error (sel : Hook → Option (Option GoErr)) (h : Hook) (e : GoErr) :
    ∀ (pre : List Hook) (post : List Hook),
    (∀ h2 ∈ pre, ∀ r, sel h2 = some r → r = none) →
    sel h = some (some e) →
    hookPhaseLoop sel true (pre ++ h :: post) = (invokedNames sel pre ++ [h.Name], some e)
  | [], post, _, hfail => by
    simp [hookPhaseLoop, hfail, invokedNames]
  | h2 :: pre, post, hpre, hfail => by
    have ih := hookPhaseLoop_first_error sel h e pre post
      (fun a ha => hpre a (List.mem_cons_of_mem _ ha)) hfail
    cases hsel : sel h2 with
    | none =>
      simp [hookPhaseLoop, hsel, invokedNames, List.filter_cons, ih]
    | some r =>
      have hr : r = none := hpre h2 (List.mem_cons_self _ _) r hsel
      subst hr
      simp [hookPhaseLoop, hsel, invokedNames, List.filter_cons, ih]

/-! ## Lemmas about generateACL -/

/-- When stopOnError is unset or the action never fails, the injection
loop applies every rule of the label in order and reports no error. -/
theorem injectRules_total (chain iface proto portStr : String)
    (action : String → String → List String → Option GoErr) (stopOnError : Bool)
    (hcase : stopOnError = false ∨ action = okAction) :
    ∀ ips : List String, injectRules chain iface proto portStr action stopOnError ips
      = (ips.map (fun ip =>
          ⟨"filter", chain, goSplit (aclRuleString iface proto ip portStr) ' '⟩), none)
  | [] => rfl
  | ip :: rest => by
    have ih := injectRules_total chain iface proto portStr action stopOnError hcase rest
    rcases hcase with rfl | rfl
    · cases hact : action "filter" chain (goSplit (aclRuleString iface proto ip portStr) ' ') with
      | none => simp [injectRules, hact, ih]
      | some e => simp [injectRules, hact, ih]
    · simp [injectRules, okAction, ih]

/-- When stopOnError is unset or the action never fails, the inner
default-allowed loop applies one rule per port mapping and reports no
error. -/
theorem defaultRulesPorts_total (iface chain cidr : String)
    (action : String → String → List String → Option GoErr) (stopOnError : Bool)
    (hcase : stopOnError = false ∨ action = okAction) :
    ∀ pms : List PortMapping, defaultRulesPorts iface chain cidr action stopOnError pms
      = (pms.map (fun pm =>
          ⟨"filter", chain,
            goSplit (aclRuleString iface pm.Protocol cidr (toString pm.HostPort)) ' '⟩), none)
  | [] => rfl
  | pm :: rest => by
    have ih := defaultRulesPorts_total iface chain cidr action stopOnError hcase rest
    rcases hcase with rfl | rfl
    · cases hact : action "filter" chain
          (goSplit (aclRuleString iface pm.Protocol cidr (toString pm.HostPort)) ' ') with
      | none => simp [defaultRulesPorts, hact, ih]
      | some e => simp [defaultRulesPorts, hact, ih]
    · simp [defaultRulesPorts, okAction, ih]

/-- When stopOnError is unset or the action never fails, the
default-allowed section applies every network-times-port rule and reports
no error. -/
theorem defaultRulesLoop_total (iface chain : String)
    (action : String → String → List String → Option GoErr) (stopOnError : Bool)
    (pms : List PortMapping)
    (hcase : stopOnError = false ∨ action = okAction) :
    ∀ cidrs : List String, defaultRulesLoop iface chain action stopOnError pms cidrs
      = ((cidrs.map (fun cidr => pms.map (fun pm =>
          (⟨"filter", chain,
            goSplit (aclRuleString iface pm.Protocol cidr (toString pm.HostPort)) ' '⟩
            : ACLCall)))).flatten, none)
  | [] => rfl
  | cidr :: rest => by
    have ih := defaultRulesLoop_total iface chain action stopOnError pms hcase rest
    have hp := defaultRulesPorts_total iface chain cidr action stopOnError hcase pms
    simp [defaultRulesLoop, hp, ih]

/-- The whole label loop is insensitive to action failures whenever
stopOnError is unset, and insensitive to stopOnError whenever the action
never fails: it always equals the canonical run with a never-failing
action and stopOnError unset. -/
theorem aclLabelLoop_eq_canon (iface chain : String) (pms : List PortMapping)
    (action : String → String → List String → Option GoErr) (stopOnError : Bool)
    (hcase : stopOnError = false ∨ action = okAction) :
    ∀ ls : List Label, aclLabelLoop iface chain pms action stopOnError ls
      = aclLabelLoop iface chain pms okAction false ls
  | [] => rfl
  | l :: rest => by
    have ih := aclLabelLoop_eq_canon iface chain pms action stopOnError hcase rest
    cases hm : aclFindSubmatch l.Key with
    | none => simp [aclLabelLoop, hm, ih]
    | some ds =>
      cases hat : goAtoi ds with
      | mk v ok =>
      cases ok with
      | false => simp [aclLabelLoop, hm, hat]
      | true =>
        by_cases hv : v < pms.length
        · cases hp : parseLabelIPs (goSplit l.Value ',') with
          | error e => simp [aclLabelLoop, hm, hat, hv, hp]
          | ok ips =>
            have hinj := injectRules_total chain iface (pms[v]).Protocol
              (toString (pms[v]).HostPort) action stopOnError hcase ips
            have hinj2 := injectRules_total chain iface (pms[v]).Protocol
              (toString (pms[v]).HostPort) okAction false (Or.inl rfl) ips
            simp [aclLabelLoop, hm, hat, hv, hp, hinj, hinj2, ih]
        · simp [aclLabelLoop, hm, hat, hv]

/-- generateACL is insensitive to action failures whenever stopOnError is
unset, and insensitive to stopOnError whenever the action never fails. -/
theorem generateACL_eq_canon (cfg : ACLConfig) (info : TaskInfo) (chain : String)
    (action : String → String → List String → Option GoErr) (stopOnError : Bool)
    (hcase : stopOnError = false ∨ action = okAction) :
    generateACL cfg info chain action stopOnError = generateACL cfg info chain okAction false := by
  have hl := aclLabelLoop_eq_canon (aclIface cfg) chain info.getPortMappings action stopOnError
    hcase info.getLabels
  have hd := defaultRulesLoop_total (aclIface cfg) chain action stopOnError
    info.getPortMappings hcase cfg.defaultAllowedCIDR
  have hd2 := defaultRulesLoop_total (aclIface cfg) chain okAction false
    info.getPortMappings (Or.inl rfl) cfg.defaultAllowedCIDR
  simp [generateACL, hl, hd, hd2]

/-- The digit prefix taken by takeDigits consists of digits. -/
theorem takeDigits_digits : ∀ cs : List Char, (takeDigits cs).1.all Char.isDigit = true
  | [] => rfl
  | c :: cs => by
    by_cases h : c.isDigit
    · simp [takeDigits, h, takeDigits_digits cs]
    · simp [takeDigits, h]

/-- A successful match at a position captures a nonempty digit string. -/
theorem aclMatchAt_digits (cs : List Char) (ds : String) (h : aclMatchAt cs = some ds) :
    ds.data ≠ [] ∧ ds.data.all Char.isDigit = true := by
  unfold aclMatchAt at h
  by_cases h9 : cs.take 9 = "EXECUTOR_".data
  · rw [if_pos h9] at h
    by_cases hcond : (takeDigits (cs.drop 9)).1 ≠ [] ∧
        (takeDigits (cs.drop 9)).2.take 4 = "_ACL".data
    · rw [if_pos hcond] at h
      have hds : String.mk (takeDigits (cs.drop 9)).1 = ds := Option.some.inj h
      subst hds
      exact ⟨hcond.1, takeDigits_digits (cs.drop 9)⟩
    · rw [if_neg hcond] at h
      cases h
  · rw [if_neg h9] at h
    cases h

/-- A successful leftmost search captures a nonempty digit string. -/
theorem aclFindAux_digits : ∀ (cs : List Char) (ds : String), aclFindAux cs = some ds →
    ds.data ≠ [] ∧ ds.data.all Char.isDigit = true
  | [], ds, h => by cases h
  | c :: cs, ds, h => by
    rw [aclFindAux] at h
    cases hm : aclMatchAt (c :: cs) with
    | some ds2 =>
      rw [hm] at h
      exact aclMatchAt_digits (c :: cs) ds (hm.trans h)
    | none =>
      rw [hm] at h
      exact aclFindAux_digits cs ds h

/-- A successful FindStringSubmatch captures a nonempty digit string. -/
theorem aclFindSubmatch_digits (s : String) (ds : String) (h : aclFindSubmatch s = some ds) :
    ds.data ≠ [] ∧ ds.data.all Char.isDigit = true :=
  aclFindAux_digits s.data ds h

/-- On a nonempty digit string, goAtoi returns the decimal value when it
fits a Go int64 and a range error otherwise. -/
theorem goAtoi_digits (ds : String) (h1 : ds.data ≠ []) (h2 : ds.data.all Char.isDigit = true) :
    goAtoi ds = if digitsToNat ds.data ≤ maxGoInt
      then (digitsToNat ds.data, true) else (maxGoInt, false) := by
  rw [goAtoi, if_pos ⟨h1, h2⟩]

/-- The label loop stops at a label whose captured port index is at least
the number of port mappings: the trace is exactly that of the preceding
labels alone, and an error is returned. -/
theorem aclLabelLoop_bad_label (iface chain : String) (pms : List PortMapping)
    (action : String → String → List String → Option GoErr)
    (bad : Label) (post : List Label) (ds : String)
    (hfind : aclFindSubmatch bad.Key = some ds)
    (hge : pms.length ≤ digitsToNat ds.data) :
    ∀ pre : List Label, ∃ e, aclLabelLoop iface chain pms action true (pre ++ bad :: post)
      = ((aclLabelLoop iface chain pms action true pre).1, some e)
  | [] => by
    obtain ⟨hd1, hd2⟩ := aclFindSubmatch_digits bad.Key ds hfind
    have hatoi := goAtoi_digits ds hd1 hd2
    by_cases hmax : digitsToNat ds.data ≤ maxGoInt
    · rw [if_pos hmax] at hatoi
      have hv : ¬(digitsToNat ds.data < pms.length) := not_lt.mpr hge
      refine ⟨"Port index " ++ toString (digitsToNat ds.data)
        ++ " does not match port mapping definition", ?_⟩
      simp [aclLabelLoop, hfind, hatoi, hv]
    · rw [if_neg hmax] at hatoi
      refine ⟨"Port index " ++ toString maxGoInt ++ " is not valid", ?_⟩
      simp [aclLabelLoop, hfind, hatoi]
  | l :: pre => by
    obtain ⟨e, ih⟩ := aclLabelLoop_bad_label iface chain pms action bad post ds hfind hge pre
    cases hm : aclFindSubmatch l.Key with
    | none =>
      exact ⟨e, by simp [aclLabelLoop, hm, ih]⟩
    | some ds2 =>
      cases hat : goAtoi ds2 with
      | mk v ok =>
      cases ok with
      | false =>
        refine ⟨"Port index " ++ toString v ++ " is not valid", ?_⟩
        simp [aclLabelLoop, hm, hat]
      | true =>
        by_cases hv : v < pms.length
        · cases hp : parseLabelIPs (goSplit l.Value ',') with
          | error e2 =>
            exact ⟨e2, by simp [aclLabelLoop, hm, hat, hv, hp]⟩
          | ok ips =>
            cases hr2 : (injectRules chain iface (pms[v]).Protocol
                (toString (pms[v]).HostPort) action true ips).2 with
            | some e2 =>
              exact ⟨e2, by simp [aclLabelLoop, hm, hat, hv, hp, hr2]⟩
            | none =>
              exact ⟨e, by simp [aclLabelLoop, hm, hat, hv, hp, hr2, ih]⟩
        · refine ⟨"Port index " ++ toString v ++ " does not match port mapping definition", ?_⟩
          simp [aclLabelLoop, hm, hat, hv]

/-! ## Claim theorems -/

/-- C1: for every registered hook list and every setup phase (pre-create,
pre-run, post-run), when the hooks before h do not fail for that phase and
the callback of h for that phase is present and returns e, the phase run
invokes only the present callbacks of the prefix and then h, stops there
(no later hook is invoked), and the phase entry point returns e. -/
theorem setup_phase_stops_on_first_error
    (m : Manager) (c : Containerizer) (ti : TaskInfo) (fi : FrameworkInfo)
    (cid : String) (w : String) (pre post : List Hook) (h : Hook) (e : GoErr)
    (hw : w = preCreate ∨ w = preRun ∨ w = postRun)
    (hsplit : m.Hooks = pre ++ h :: post)
    (hpre : ∀ h2 ∈ pre, ∀ r, phaseSel w c ti fi cid h2 = some r → r = none)
    (hfail : phaseSel w c ti fi cid h = some (some e)) :
    m.runHooks w c ti fi cid true
      = (m, invokedNames (phaseSel w c ti fi cid) pre ++ [h.Name], some e) ∧
    (w = preCreate → m.RunPreCreateHooks c ti fi
      = (m, invokedNames (phaseSel w c ti fi cid) pre ++ [h.Name], some e)) ∧
    (w = preRun → m.RunPreRunHooks c ti fi cid
      = (m, invokedNames (phaseSel w c ti fi cid) pre ++ [h.Name], some e)) ∧
    (w = postRun → m.RunPostRunHooks c ti fi cid
      = (m, invokedNames (phaseSel w c ti fi cid) pre ++ [h.Name], some e)) := by
  have hloop : hookPhaseLoop (phaseSel w c ti fi cid) true m.Hooks
      = (invokedNames (phaseSel w c ti fi cid) pre ++ [h.Name], some e) := by
    rw [hsplit]
    exact hookPhaseLoop_first_error (phaseSel w c ti fi cid) h e pre post hpre hfail
  have hcond : w = preCreate ∨ w = preRun ∨ w = postRun ∨ w = preStop ∨ w = postStop := by
    rcases hw with hw | hw | hw
    · exact Or.inl hw
    · exact Or.inr (Or.inl hw)
    · exact Or.inr (Or.inr (Or.inl hw))
  refine ⟨?_, ?_, ?_, ?_⟩
  · rw [Manager.runHooks, if_pos hcond, hloop]
  · intro hwc
    subst hwc
    have hsel : phaseSel preCreate c ti fi "" = phaseSel preCreate c ti fi cid := by
      funext hk
      simp [phaseSel]
    rw [Manager.RunPreCreateHooks, Manager.runHooks, if_pos (Or.inl rfl), hsel, hloop]
  · intro hwc
    subst hwc
    rw [Manager.RunPreRunHooks, Manager.runHooks, if_pos (Or.inr (Or.inl rfl)), hloop]
  · intro hwc
    subst hwc
    rw [Manager.RunPostRunHooks, Manager.runHooks,
      if_pos (Or.inr (Or.inr (Or.inl rfl))), hloop]

/-- C1 witness: a manager whose first hook fails pre-run with boom and two
further hooks; RunPreRunHooks invokes only the failing hook and returns
its error. -/
theorem setup_phase_stops_on_first_error_witness :
    mFix.RunPreRunHooks czFix ti0 fi0 "cid0" = (mFix, ["h1"], some "boom") := by
  have h := setup_phase_stops_on_first_error mFix czFix ti0 fi0 "cid0" preRun
    [] [hookOk2, hookOk3] hookFail "boom" (Or.inr (Or.inl rfl)) rfl
    (fun h2 hm => absurd hm (List.not_mem_nil h2)) rfl
  exact h.2.2.1 rfl

/-- C2: for every registered hook list, the teardown entry points
RunPreStopHooks and RunPostStopHooks invoke every hook whose callback for
the phase is present, in list order, whatever the callbacks return, and
return success. -/
theorem teardown_phase_runs_all_hooks (m : Manager) (c : Containerizer) (ti : TaskInfo)
    (fi : FrameworkInfo) (cid : String) :
    m.RunPreStopHooks c ti fi cid
      = (m, invokedNames (phaseSel preStop c ti fi cid) m.Hooks, none) ∧
    m.RunPostStopHooks c ti fi cid
      = (m, invokedNames (phaseSel postStop c ti fi cid) m.Hooks, none) := by
  constructor
  · rw [Manager.RunPreStopHooks, Manager.runHooks,
      if_pos (Or.inr (Or.inr (Or.inr (Or.inl rfl)))),
      hookPhaseLoop_continue (phaseSel preStop c ti fi cid) m.Hooks]
  · rw [Manager.RunPostStopHooks, Manager.runHooks,
      if_pos (Or.inr (Or.inr (Or.inr (Or.inr rfl)))),
      hookPhaseLoop_continue (phaseSel postStop c ti fi cid) m.Hooks]

/-- C10: every phase run entry point returns the manager unchanged: the
enabled set and the registered hook list are those it was called with,
whatever the hook callbacks return. -/
theorem run_entry_points_preserve_manager (m : Manager) (c : Containerizer)
    (ti : TaskInfo) (fi : FrameworkInfo) (cid : String) :
    (m.RunPreCreateHooks c ti fi).1 = m ∧
    (m.RunPreRunHooks c ti fi cid).1 = m ∧
    (m.RunPostRunHooks c ti fi cid).1 = m ∧
    (m.RunPreStopHooks c ti fi cid).1 = m ∧
    (m.RunPostStopHooks c ti fi cid).1 = m := by
  refine ⟨?_, ?_, ?_, ?_, ?_⟩ <;>
    simp only [Manager.RunPreCreateHooks, Manager.RunPreRunHooks, Manager.RunPostRunHooks,
      Manager.RunPreStopHooks, Manager.RunPostStopHooks, Manager.runHooks] <;>
    split <;> rfl

/-- C3 counterexample: two enabled hooks of equal priority registered in
the order a then b come out of RegisterHooks in the order b then a: the
sort reverses equal-priority runs instead of keeping registration order,
so the claimed stability fails. -/
theorem register_equal_priority_not_stable :
    ((NewManager ["a", "b"]).RegisterHooks [hookA, hookB]).Hooks.map Hook.Name = ["b", "a"] ∧
    ((NewManager ["a", "b"]).RegisterHooks [hookA, hookB]).Hooks.map Hook.Name ≠ ["a", "b"] := by
  constructor
  · rfl
  · intro hcontra
    have : (["b", "a"] : List String) = ["a", "b"] := by
      calc (["b", "a"] : List String)
          = ((NewManager ["a", "b"]).RegisterHooks [hookA, hookB]).Hooks.map Hook.Name := rfl
        _ = ["a", "b"] := hcontra
    simp at this

/-- C3 amended: after any sequence of RegisterHooks calls on a fresh
manager, the enabled set is unchanged, the registered list is sorted by
nonincreasing priority, and it consists of exactly the enabled hooks of
all the calls (as a multiset; the relative order of equal-priority hooks
is not preserved, see the counterexample). -/
theorem register_hooks_sorted_enabled (names : List String) (calls : List (List Hook)) :
    ((calls.foldl (fun m hs => m.RegisterHooks hs) (NewManager names)).EnabledHooks = names) ∧
    ((calls.foldl (fun m hs => m.RegisterHooks hs) (NewManager names)).Hooks.Pairwise
      (fun h1 h2 => h2.Priority ≤ h1.Priority)) ∧
    List.Perm ((calls.foldl (fun m hs => m.RegisterHooks hs) (NewManager names)).Hooks)
      (calls.flatten.filter (fun h => names.contains h.Name)) := by
  obtain ⟨he, hp⟩ := foldl_register names calls (NewManager names) rfl
  refine ⟨he, ?_, ?_⟩
  · exact foldl_register_pairwise calls (NewManager names) (by simp [NewManager])
  · simpa [NewManager] using hp

/-- C4: on the task with label EXECUTOR_0_ACL valued 10.0.0.5,10.1.0.0/24,
port mapping 0 tcp 8080, external interface eth0 and no default-allowed
networks, injection issues exactly two append actions on the resolved
chain, with the two expected rule specifications. -/
theorem acl_label_derivation_two_rules (chain : String) :
    generateACL cfg4 task4 chain okAction true =
      ([⟨"filter", chain,
          ["-i", "eth0", "-p", "tcp", "-s", "10.0.0.5/32", "--dport", "8080", "-j", "ACCEPT"]⟩,
        ⟨"filter", chain,
          ["-i", "eth0", "-p", "tcp", "-s", "10.1.0.0/24", "--dport", "8080", "-j", "ACCEPT"]⟩],
       none) := rfl

/-- C5: when a task label matches the ACL pattern with a captured port
index of value at least the number of declared port mappings, injection
(stop-on-first-failure, with a driver whose appends succeed) returns an
error, and the action trace is exactly the one of the labels preceding
that label: no rule of that label or of any later label, and no
default-allowed rule, is injected. -/
theorem acl_out_of_range_port_index_blocks_injection
    (cfg : ACLConfig) (info : TaskInfo) (chain : String)
    (pre : List Label) (bad : Label) (post : List Label) (ds : String)
    (hlabels : info.getLabels = pre ++ bad :: post)
    (hfind : aclFindSubmatch bad.Key = some ds)
    (hge : info.getPortMappings.length ≤ digitsToNat ds.data) :
    ∃ e, generateACL cfg info chain okAction true
      = ((aclLabelLoop (aclIface cfg) chain info.getPortMappings okAction true pre).1,
         some e) := by
  obtain ⟨e, he⟩ := aclLabelLoop_bad_label (aclIface cfg) chain info.getPortMappings okAction
    bad post ds hfind hge pre
  refine ⟨e, ?_⟩
  rw [generateACL, hlabels]
  simp [he]

/-- C5 witness: a task with two port mappings and the label
EXECUTOR_5_ACL; injection returns an error and issues no action at all. -/
theorem acl_out_of_range_port_index_witness :
    ∃ e, generateACL cfg4 task5 "acl5" okAction true = ([], some e) :=
  acl_out_of_range_port_index_blocks_injection cfg4 task5 "acl5"
    [] ⟨"EXECUTOR_5_ACL", "10.0.0.1"⟩ [] "5" rfl rfl (by decide)

/-- C6: for every task and configuration, with a driver whose appends
succeed during injection, the pre-stop retraction run (whatever its delete
outcomes) produces exactly the same action call sequence as the post-run
injection run: one delete per append, with the identical table, chain and
rule specification token list. -/
theorem acl_roundtrip_delete_matches_append (cfg : ACLConfig) (info : TaskInfo)
    (chain : String) (dact : String → String → List String → Option GoErr) :
    generateACL cfg info chain okAction true = generateACL cfg info chain dact false := by
  rw [generateACL_eq_canon cfg info chain okAction true (Or.inr rfl),
    generateACL_eq_canon cfg info chain dact false (Or.inl rfl)]

/-- C7 counterexample: in retraction mode a malformed address in the first
ACL label aborts the whole run: no delete is attempted for the valid
second label nor for the configured default-allowed network, although the
same task without the malformed label defines two such rules. -/
theorem acl_retraction_aborts_on_validation_failure :
    generateACL cfg7 task7 "chain7" okAction false = ([], some "Invalid IP: bad_ip") ∧
    generateACL cfg7 task7good "chain7" okAction false =
      ([⟨"filter", "chain7",
          ["-i", "eth1", "-p", "tcp", "-s", "10.0.0.5/32", "--dport", "80", "-j", "ACCEPT"]⟩,
        ⟨"filter", "chain7",
          ["-i", "eth1", "-p", "tcp", "-s", "10.9.0.0/16", "--dport", "80", "-j", "ACCEPT"]⟩],
       none) :=
  ⟨rfl, rfl⟩

/-- C7 amended: in retraction mode (stopOnError unset), failures of the
delete action never change which rules are attempted or the returned
status: the run equals the run with a never-failing driver. Validation
failures of a label, however, still abort the remainder (see the
counterexample). -/
theorem acl_retraction_attempts_all_despite_action_failures (cfg : ACLConfig)
    (info : TaskInfo) (chain : String)
    (action : String → String → List String → Option GoErr) :
    generateACL cfg info chain action false = generateACL cfg info chain okAction false :=
  generateACL_eq_canon cfg info chain action false (Or.inl rfl)

/-- C8: checkChain fails with the configuration errors before any listing
of the filter table when the chain is unset or names the built-in FORWARD
or OUTPUT chain; when the chain is absent from the listed chains it fails
with the chain-not-found error after exactly one listing; and it never
creates a chain. -/
theorem checkchain_fails_closed (cfg : ACLConfig) (res : Except GoErr (List String)) :
    (cfg.chain = "" →
      checkChain cfg res = ([], .error "no iptables chain set for acl hook")) ∧
    (cfg.chain = "FORWARD" ∨ cfg.chain = "OUTPUT" →
      checkChain cfg res
        = ([], .error "forward and ouput chains cannot be used for acl injection")) ∧
    (∀ chains, res = .ok chains → cfg.chain ≠ "" → cfg.chain ≠ "FORWARD" →
      cfg.chain ≠ "OUTPUT" → cfg.chain ∉ chains →
      checkChain cfg res = ([DriverOp.listChains "filter"],
        .error ("Chain " ++ cfg.chain ++ " does not exists"))) ∧
    (∀ t ch, DriverOp.newChain t ch ∉ (checkChain cfg res).1) := by
  refine ⟨?_, ?_, ?_, ?_⟩
  · intro h
    unfold checkChain
    rw [if_pos h]
  · intro h
    have hne : cfg.chain ≠ "" := by
      rcases h with h | h <;> simp [h]
    have hb : (cfg.chain = "FORWARD" || cfg.chain = "OUTPUT") = true := by
      rcases h with h | h <;> simp [h]
    unfold checkChain
    rw [if_neg hne, if_pos hb]
  · intro chains hres hne hnf hno hmem
    subst hres
    have hb : ¬((cfg.chain = "FORWARD" || cfg.chain = "OUTPUT") = true) := by
      simp [hnf, hno]
    unfold checkChain
    rw [if_neg hne, if_neg hb]
    simp [hmem]
  · intro t ch
    unfold checkChain
    split
    · simp
    · split
      · simp
      · cases res with
        | error e => simp
        | ok chains =>
          by_cases hmem : cfg.chain ∈ chains <;> simp [hmem]

/-- C8 witness: with the filter table listing only its three built-in
chains, an unset chain and the FORWARD chain fail with no driver
operation, and an absent chain fails with the not-found error after the
single listing. -/
theorem checkchain_fails_closed_witness :
    checkChain cfgE chainsFix = ([], .error "no iptables chain set for acl hook") ∧
    checkChain cfgF chainsFix
      = ([], .error "forward and ouput chains cannot be used for acl injection") ∧
    checkChain cfgA chainsFix
      = ([DriverOp.listChains "filter"], .error "Chain mychain does not exists") := by
  refine ⟨(checkchain_fails_closed cfgE chainsFix).1 rfl,
    (checkchain_fails_closed cfgF chainsFix).2.1 (Or.inl rfl), ?_⟩
  exact (checkchain_fails_closed cfgA chainsFix).2.2.1 ["INPUT", "FORWARD", "OUTPUT"]
    rfl (by decide) (by decide) (by decide) (by decide)

/-- C9: ContainerGetPID of the containerd containerizer returns -1 with a
nil error for every container id: it reports neither the main process id
nor a not-found error for unknown containers, a stub contradicting the
Containerizer interface contract. -/
theorem containerd_getpid_stub (c : ContainerdContainerizer) (id : String) :
    c.ContainerGetPID id = (-1, none) := rfl
